import Mathlib

/-!
Verification of the geospatial photo-route indexing and heading-resolution
engine of the geophotos-viewer repository.

The JavaScript sources are shallowly embedded:

* JS numbers that only ever hold coordinates, angles or timestamps read from
  JSON are modelled as `ℚ` (exact values; floating-point rounding is not
  modelled); values flowing through `Math.sin`/`Math.cos`/`Math.atan2`/
  `Math.sqrt` are modelled as `ℝ`, with `Math.atan2 y x` as `Complex.arg ⟨x, y⟩`.
* `Date.getTime()` instants are modelled as `Int` (epoch milliseconds); the
  source always compares instants obtained this way.
* A possibly-absent JS field (`undefined`) is an `Option`; JS truthiness of a
  numeric field (`!photo.lat`) is `jsTruthyNum`, of a string is `jsTruthyStr`.
* A plain JS object used as a dictionary (`headingAdjustments`,
  `routesByFolder`, `routeCoordCounts`) is an association list in insertion
  order, which is the iteration order JS gives the non-numeric string keys
  used by this program.
* `localStorage` and the DOM are modelled by explicit state passing; the
  fields of the session state that the claims mention are kept, the purely
  presentational ones are dropped.
-/

namespace GeoPhotos

/-- Truthiness of an optional JS number: `undefined` and `0` are falsy.
(`NaN` is not modelled.) Embeds checks such as `!photo.lat` in
`getPhotosForNeighborhood` (src/unnamed/part_001 line 229). -/
def jsTruthyNum (x : Option ℚ) : Bool :=
  match x with
  | none => false
  | some v => v != 0

/-- Truthiness of an optional JS string: `null` and `""` are falsy. -/
def jsTruthyStr (x : Option String) : Bool :=
  match x with
  | none => false
  | some s => s != ""

/-- One photo record of `index.json`, as consumed by the viewer
(src/unnamed/part_001).  `yaw`/`pitch` are the optional permanent heading
values; `timestamp` is the capture instant in epoch milliseconds. -/
structure Photo where
  path : String
  date : String
  timestamp : Int
  lat : Option ℚ
  lon : Option ℚ
  folder : String
  yaw : Option ℚ
  pitch : Option ℚ
deriving Repr, DecidableEq, Inhabited

/-- A `{yaw, pitch}` entry of the heading-override store. -/
structure Adjustment where
  yaw : ℚ
  pitch : ℚ
deriving Repr, DecidableEq

/-- The `headingAdjustments` store: photo path → adjustment, in insertion
order (a JS object keyed by path strings). -/
abbrev AdjStore := List (String × Adjustment)

/-- `x || 0` on an optional JS number (src: `photo.yaw || 0`). -/
def jsOrZero (x : Option ℚ) : ℚ :=
  match x with
  | none => 0
  | some v => if v == 0 then 0 else v

/-- The result of the heading resolver: yaw, pitch and the source tag string. -/
structure Heading where
  yaw : ℚ
  pitch : ℚ
  source : String
deriving Repr, DecidableEq

/-- Embedding of `getPhotoHeading` (src/unnamed/part_001 lines 159–177).
The `index` argument of the source is unused there and omitted.  The truthy
check `if (localSaved)` is `isSome` of the lookup: store entries are objects,
hence truthy. -/
def getPhotoHeading (headingAdjustments : AdjStore) (photo : Photo) : Heading :=
  match headingAdjustments.lookup photo.path with
  | some localSaved => ⟨localSaved.yaw, localSaved.pitch, "local"⟩
  | none =>
    if photo.yaw ≠ none ∨ photo.pitch ≠ none then
      ⟨jsOrZero photo.yaw, jsOrZero photo.pitch, "index"⟩
    else
      ⟨0, 0, "default"⟩

/-- Embedding of `loadHeadingAdjustments` (src/unnamed/part_001 lines
137–148).  `saved` is `localStorage.getItem(STORAGE_KEY)` (`none` = `null`);
`parse` abstracts `JSON.parse` restricted to this store's shape, `none`
meaning the parse throws; `headingAdjustments` is the store's value before
the call.  The `catch` branch assigns `{}`; the function never propagates an
error, which the embedding reflects by being total. -/
def loadHeadingAdjustments (parse : String → Option AdjStore)
    (saved : Option String) (headingAdjustments : AdjStore) : AdjStore :=
  if jsTruthyStr saved then
    match parse (saved.getD "") with
    | some st => st
    | none => []
  else
    headingAdjustments

/-- A JSON value, enough to state what `exportAdjustments` produces. -/
inductive JsonVal where
  | str (s : String)
  | num (q : ℚ)
  | obj (fields : List (String × JsonVal))

/-- The store rendered as the JSON object `{[path]: {yaw, pitch}}`. -/
def storeAsJson (st : AdjStore) : List (String × JsonVal) :=
  st.map fun e => (e.1, .obj [("yaw", .num e.2.yaw), ("pitch", .num e.2.pitch)])

/-- Embedding of `exportAdjustments` (src/unnamed/part_001 lines 1113–1140).
`now` is `new Date().toISOString()`.  Returns the downloaded JSON document
(`none` when the store is empty and the function alerts and returns) and the
in-memory store after the call; the source reads `headingAdjustments` and
never writes it nor `localStorage`, so the state passes through unchanged. -/
def exportAdjustments (headingAdjustments : AdjStore) (now : String) :
    Option (List (String × JsonVal)) × AdjStore :=
  let count := headingAdjustments.length
  if count = 0 then
    (none, headingAdjustments)
  else
    (some [("exported", .str now),
           ("count", .num count),
           ("adjustments", .obj (storeAsJson headingAdjustments))],
     headingAdjustments)

/-- The pannellum configuration `loadPhoto` rebuilds: the panorama image path
and the initial yaw/pitch it passes (src/unnamed/part_001 lines 573–590). -/
structure PanoConfig where
  panorama : String
  yaw : ℚ
  pitch : ℚ
deriving Repr, DecidableEq

/-- The session state `loadPhoto` can touch, modelled explicitly: the current
index, the panorama viewer, the map's fly-to center, and the heading-override
store. -/
structure ViewerSession where
  currentIndex : Int
  viewer : Option PanoConfig
  mapCenter : Option (ℚ × ℚ)
  headingAdjustments : AdjStore
deriving Repr, DecidableEq

/-- Embedding of `loadPhoto` (src/unnamed/part_001 lines 558–629; the guard
is identical in src/js/viewer.js lines 245–249).  Out-of-range indices return
before any state is touched; otherwise the photo is loaded: the index is
stored, the viewer is rebuilt at the resolved heading, and the map flies to
the photo. -/
def loadPhoto (photos : List Photo) (st : ViewerSession) (index : Int) :
    ViewerSession :=
  if index < 0 ∨ index ≥ photos.length then st
  else
    let photo := photos.getD index.toNat default
    let heading := getPhotoHeading st.headingAdjustments photo
    { currentIndex := index
      viewer := some ⟨"../photos/output/" ++ photo.path, heading.yaw, heading.pitch⟩
      mapCenter := some (photo.lon.getD 0, photo.lat.getD 0)
      headingAdjustments := st.headingAdjustments }

/-- A neighborhood's optional `{start, end}` time window; `stop` embeds the
source field `end` (a Lean keyword), both epoch milliseconds. -/
structure TimeRange where
  start : Int
  stop : Int
deriving Repr, DecidableEq

/-- A neighborhood record, restricted to the fields the filter reads. -/
structure Neighborhood where
  id : String
  date : String
  timeRange : Option TimeRange
deriving Repr, DecidableEq

/-- `a.timestamp ≤ b.timestamp` ordering used by every `.sort((a, b) =>
new Date(a.timestamp) - new Date(b.timestamp))` in the source. -/
def tsRel {α : Type} (ts : α → Int) (a b : α) : Prop :=
  ts a ≤ ts b

instance {α : Type} (ts : α → Int) : DecidableRel (tsRel ts) := fun a b =>
  inferInstanceAs (Decidable (ts a ≤ ts b))

instance {α : Type} (ts : α → Int) : IsTotal α (tsRel ts) :=
  ⟨fun a b => Int.le_total (ts a) (ts b)⟩

instance {α : Type} (ts : α → Int) : IsTrans α (tsRel ts) :=
  ⟨fun _ _ _ hab hbc => le_trans hab hbc⟩

/-- The stable sort performed by JS `Array.prototype.sort` (stable per the
language specification) under the timestamp comparator. -/
def sortByTimestamp {α : Type} (ts : α → Int) (l : List α) : List α :=
  List.insertionSort (tsRel ts) l

/-- The filter closure inside `getPhotosForNeighborhood` (src/unnamed/part_001
lines 227–239), named so theorems can refer to it. -/
def neighborhoodPred (nb : Neighborhood) (photo : Photo) : Bool :=
  if photo.date != nb.date then false
  else if !jsTruthyNum photo.lat || !jsTruthyNum photo.lon then false
  else
    match nb.timeRange with
    | none => true
    | some tr =>
      if photo.timestamp < tr.start || photo.timestamp > tr.stop then false
      else true

/-- Embedding of `getPhotosForNeighborhood` (src/unnamed/part_001 lines
226–240; textually identical in src/js/viewer.js lines 91–105 and
src/unnamed/part_003 lines 43–61). -/
def getPhotosForNeighborhood (nb : Neighborhood) (allPhotos : List Photo) :
    List Photo :=
  sortByTimestamp Photo.timestamp (allPhotos.filter (neighborhoodPred nb))

/-! ### Spherical bearing and spiral offset (real-valued geometry)

`Math.sin`, `Math.cos`, `Math.sqrt` and `Math.atan2` are modelled over `ℝ`;
the float values of the source are idealized as exact reals. -/

open Real in
/-- `Math.atan2 y x`: the argument of the complex number `x + y·i`, in
`(-π, π]`, with `atan2 0 0 = 0` — exactly JS `Math.atan2` on non-NaN
inputs. -/
noncomputable def atan2 (y x : ℝ) : ℝ :=
  Complex.arg ⟨x, y⟩

/-- Truncation toward zero, as JS `%` uses on its operands' quotient. -/
noncomputable def jsTrunc (x : ℝ) : ℤ :=
  if 0 ≤ x then ⌊x⌋ else ⌈x⌉

/-- The JS remainder operator `a % b` on numbers:
`a - b * trunc(a / b)`. -/
noncomputable def jsMod (a b : ℝ) : ℝ :=
  a - b * (jsTrunc (a / b) : ℝ)

/-- Embedding of `calculateBearing` (src/unnamed/part_001 lines 1158–1169):
spherical initial bearing from `(lat1, lon1)` to `(lat2, lon2)` in degrees,
normalized by `(deg + 360) % 360`. -/
noncomputable def calculateBearing (lat1 lon1 lat2 lon2 : ℝ) : ℝ :=
  let dLon := (lon2 - lon1) * Real.pi / 180
  let lat1Rad := lat1 * Real.pi / 180
  let lat2Rad := lat2 * Real.pi / 180
  let y := Real.sin dLon * Real.cos lat2Rad
  let x := Real.cos lat1Rad * Real.sin lat2Rad -
           Real.sin lat1Rad * Real.cos lat2Rad * Real.cos dLon
  let bearing := atan2 y x
  jsMod (bearing * 180 / Real.pi + 360) 360

/-- Embedding of `getPointOffset` (src/unnamed/part_001 lines 1172–1186;
identical in src/unnamed/part_003 lines 289–303): golden-angle spiral offset
`(Δlat, Δlon)` for the `index`-th occurrence of a coordinate key. -/
noncomputable def getPointOffset (index : ℕ) : ℝ × ℝ :=
  if index = 0 then (0, 0)
  else
    let offsetDistance : ℝ := 0.00003
    let angle : ℝ := ((index : ℝ) * 137.5) * (Real.pi / 180)
    let radius : ℝ := offsetDistance * Real.sqrt (index : ℝ)
    (radius * Real.cos angle, radius * Real.sin angle)

/-- The latitude a photo contributes to geometric code, as a real.  The
routines below only read it on photos whose `lat` is present. -/
noncomputable def Photo.latD (p : Photo) : ℝ :=
  ((p.lat.getD 0 : ℚ) : ℝ)

/-- The longitude a photo contributes to geometric code, as a real. -/
noncomputable def Photo.lonD (p : Photo) : ℝ :=
  ((p.lon.getD 0 : ℚ) : ℝ)

/-! ### Route grouping (`photosByFolder` / `routesByFolder`)

Both `calculatePhotoBearings` (src/unnamed/part_001 lines 183–190) and
`initMinimap` (lines 300–309) build a JS object mapping folder name to the
list of `{photo, index}` pairs, in folder first-encounter order. -/

/-- One step of building the by-folder object: append the pair to its
folder's entry, or add the folder as a new (last) key. -/
def upsertGroup (acc : List (String × List (ℕ × Photo))) (pi : ℕ × Photo) :
    List (String × List (ℕ × Photo)) :=
  if acc.any fun g => g.1 == pi.2.folder then
    acc.map fun g => if g.1 == pi.2.folder then (g.1, g.2 ++ [pi]) else g
  else
    acc ++ [(pi.2.folder, [pi])]

/-- Group indexed photos by folder, keys in first-encounter order. -/
def groupByFolder (l : List (ℕ × Photo)) : List (String × List (ℕ × Photo)) :=
  l.foldl upsertGroup []

/-- The order in which the distinct values of a list first occur. -/
def firstOccurrences (l : List String) : List String :=
  l.foldl (fun acc a => if a ∈ acc then acc else acc ++ [a]) []

/-- Read a folder's group out of the by-folder object (`[]` if absent). -/
def getGroup (gs : List (String × List (ℕ × Photo))) (f : String) :
    List (ℕ × Photo) :=
  (gs.lookup f).getD []

/-- `routePhotos.sort((a, b) => new Date(a.photo.timestamp) - ...)`:
stable sort of a group's `{photo, index}` pairs by timestamp. -/
def sortPairs (l : List (ℕ × Photo)) : List (ℕ × Photo) :=
  sortByTimestamp (fun pi => pi.2.timestamp) l

/-- The bearing the loop body of `calculatePhotoBearings` computes for
position `i` of a time-sorted route `s` (src/unnamed/part_001 lines
197–214): to the next photo, else from the previous, else 0. -/
noncomputable def bearingAt (s : List (ℕ × Photo)) (i : ℕ) : ℝ :=
  if i < s.length - 1 then
    calculateBearing (s.getD i default).2.latD (s.getD i default).2.lonD
      (s.getD (i + 1) default).2.latD (s.getD (i + 1) default).2.lonD
  else if 0 < i then
    calculateBearing (s.getD (i - 1) default).2.latD
      (s.getD (i - 1) default).2.lonD
      (s.getD i default).2.latD (s.getD i default).2.lonD
  else
    0

/-- The `(original index, bearing)` assignments one route contributes. -/
noncomputable def assignRoute (s : List (ℕ × Photo)) : List (ℕ × ℝ) :=
  (List.range s.length).map fun i => ((s.getD i default).1, bearingAt s i)

/-- Embedding of `calculatePhotoBearings` (src/unnamed/part_001 lines
182–221): group the filtered photos by folder, time-sort each folder's
pairs, and assign each photo (by its index in `photos`) its route bearing.
The resulting association list is the `photoBearings` object. -/
noncomputable def calculatePhotoBearings (photos : List Photo) :
    List (ℕ × ℝ) :=
  (groupByFolder photos.enum).flatMap fun g => assignRoute (sortPairs g.2)

/-- The time-ordered route of folder `f`: the photos of `f` (with their
indices in `photos`), stably sorted by timestamp. -/
def routeOf (photos : List Photo) (f : String) : List (ℕ × Photo) :=
  sortPairs (photos.enum.filter fun pi => pi.2.folder == f)

/-! ### Coordinate-collision offsets -/

/-- The `photo.lat && photo.lon && photo.folder` truthiness test guarding
route membership in `initMinimap` (src/unnamed/part_001 line 303). -/
def mapPointPred (p : Photo) : Bool :=
  jsTruthyNum p.lat && jsTruthyNum p.lon && (p.folder != "")

/-- The `routesByFolder` object of `initMinimap` (src/unnamed/part_001
lines 300–309). -/
def minimapGroups (photos : List Photo) :
    List (String × List (ℕ × Photo)) :=
  groupByFolder (photos.enum.filter fun pi => mapPointPred pi.2)

/-- `initMinimap`'s routes after the per-folder time sort (line 325). -/
def minimapRoutes (photos : List Photo) :
    List (String × List (ℕ × Photo)) :=
  (minimapGroups photos).map fun g => (g.1, sortPairs g.2)

/-- The rounded-coordinate key `${lat.toFixed(6)},${lon.toFixed(6)}`,
modelled as the pair of numerators after rounding to 6 decimal places
(`toFixed` picks the larger candidate on ties, i.e. rounds half up, as
`round` does). -/
def coordKey (p : Photo) : Int × Int :=
  (round ((p.lat.getD 0) * 1000000), round ((p.lon.getD 0) * 1000000))

/-- The per-key occurrence counters (`routeCoordCounts` / `coordCounts`):
a JS object keyed by rounded coordinate. -/
abbrev CoordCounts := List ((Int × Int) × ℕ)

/-- The per-point offset loop of `initMinimap` (src/unnamed/part_001 lines
344–357): read the key's count (0 if absent), bump it, and offset the point
by `count > 0 ? getPointOffset(count) : {lat: 0, lon: 0}`.  Returns the
offsets in route order together with the final counters. -/
noncomputable def assignOffsets (counts : CoordCounts) :
    List Photo → List (Photo × (ℝ × ℝ)) × CoordCounts
  | [] => ([], counts)
  | p :: rest =>
    let key := coordKey p
    let count := (counts.lookup key).getD 0
    let offset := if count > 0 then getPointOffset count else ((0 : ℝ), (0 : ℝ))
    let next := assignOffsets ((key, count + 1) :: counts) rest
    ((p, offset) :: next.1, next.2)

/-- The per-point offset loop of `initCardMap` (src/unnamed/part_003 lines
185–204): identical bookkeeping, offset `getPointOffset(count)`. -/
noncomputable def assignOffsetsCard (counts : CoordCounts) :
    List Photo → List (Photo × (ℝ × ℝ)) × CoordCounts
  | [] => ([], counts)
  | p :: rest =>
    let key := coordKey p
    let count := (counts.lookup key).getD 0
    let offset := getPointOffset count
    let next := assignOffsetsCard ((key, count + 1) :: counts) rest
    ((p, offset) :: next.1, next.2)

/-- Point offsets of the full viewer's minimap: `routeCoordCounts` is
declared inside the per-folder loop (src/unnamed/part_001 line 328), so
every route starts from empty counters. -/
noncomputable def minimapOffsets (routes : List (String × List Photo)) :
    List (Photo × (ℝ × ℝ)) :=
  routes.flatMap fun r =>
    (assignOffsets [] (sortByTimestamp Photo.timestamp r.2)).1

/-- Point offsets of a home-page card map: `coordCounts` is declared outside
the per-folder loop (src/unnamed/part_003 line 156), so the counters are
shared by all of the neighborhood's routes. -/
noncomputable def cardMapOffsets (routes : List (String × List Photo)) :
    List (Photo × (ℝ × ℝ)) :=
  (routes.foldl
    (fun acc r =>
      let step := assignOffsetsCard acc.2 (sortByTimestamp Photo.timestamp r.2)
      (acc.1 ++ step.1, step.2))
    ([], [])).1

/-- Uniform translation of a photo's coordinates by `(dlat, dlon)` degrees
(absent coordinates stay absent). -/
def translate (dlat dlon : ℚ) (p : Photo) : Photo :=
  { p with lat := p.lat.map (· + dlat), lon := p.lon.map (· + dlon) }

/-! ### Concrete records used by counterexamples and witnesses -/

/-- A photo whose permanent yaw is set and pitch is absent. -/
def photoYawFive : Photo :=
  { path := "a.jpg", date := "2025-12-09", timestamp := 0, lat := some 35,
    lon := some 139, folder := "F", yaw := some 5, pitch := none }

/-- A photo located exactly on the equator: latitude present but `0`. -/
def photoLatZero : Photo :=
  { path := "z.jpg", date := "2025-12-09", timestamp := 100, lat := some 0,
    lon := some 139, folder := "F", yaw := none, pitch := none }

/-- A neighborhood with no time window. -/
def nbTokyo : Neighborhood :=
  { id := "nb1", date := "2025-12-09", timeRange := none }

/-- A one-entry override store. -/
def storeOne : AdjStore := [("a.jpg", ⟨10, -5⟩)]

/-- A fixed export instant. -/
def isoNow : String := "2026-01-01T00:00:00.000Z"

/-- First photo of a two-photo route on the equator. -/
def pB1 : Photo :=
  { path := "b1.jpg", date := "2025-12-10", timestamp := 0, lat := some 0,
    lon := some 0, folder := "G", yaw := none, pitch := none }

/-- Second photo of the route, due east of the first. -/
def pB2 : Photo :=
  { path := "b2.jpg", date := "2025-12-10", timestamp := 1000, lat := some 0,
    lon := some 90, folder := "G", yaw := none, pitch := none }

/-- A two-photo single-folder collection. -/
def photosB : List Photo := [pB1, pB2]

/-- The folder of `photosB`. -/
def folderG : String := "G"

/-- A later-timestamped photo of folder `F`. -/
def pW1 : Photo :=
  { path := "w1.jpg", date := "2025-12-09", timestamp := 2000, lat := some 35,
    lon := some 139, folder := "F", yaw := none, pitch := none }

/-- An earlier-timestamped photo of folder `F`, listed second. -/
def pW2 : Photo :=
  { path := "w2.jpg", date := "2025-12-09", timestamp := 1000, lat := some 36,
    lon := some 140, folder := "F", yaw := none, pitch := none }

/-- A collection whose single folder arrives out of time order. -/
def photosW : List Photo := [pW1, pW2]

/-- The folder of `photosW`. -/
def folderF : String := "F"

/-- The time-sorted route of `photosW`: indices keep the collection order. -/
def routeW : List (ℕ × Photo) := [(1, pW2), (0, pW1)]

/-- A photo of route `A` at a fixed spot. -/
def pXa : Photo :=
  { path := "x1.jpg", date := "2025-12-11", timestamp := 0, lat := some 35.5,
    lon := some 139.5, folder := "A", yaw := none, pitch := none }

/-- A photo of route `B` at exactly the same spot. -/
def pXb : Photo :=
  { path := "x2.jpg", date := "2025-12-11", timestamp := 5000, lat := some 35.5,
    lon := some 139.5, folder := "B", yaw := none, pitch := none }

/-- Two one-photo routes sharing one rounded coordinate. -/
def routesX : List (String × List Photo) := [("A", [pXa]), ("B", [pXb])]

/-! ### Helper lemmas -/

/-- `x || 0` and `x ?? 0` agree on optional numbers (they differ only at
`NaN`, which is not modelled): both give `x.getD 0`. -/
theorem jsOrZero_eq_getD (x : Option ℚ) : jsOrZero x = x.getD 0 := by
  cases x with
  | none => rfl
  | some v =>
    simp only [jsOrZero, Option.getD_some]
    by_cases h : v = 0
    · simp [h]
    · simp [h]

/-- Unfolding of the neighborhood filter predicate into its logical form. -/
theorem neighborhoodPred_iff (nb : Neighborhood) (photo : Photo) :
    neighborhoodPred nb photo = true ↔
      photo.date = nb.date ∧ jsTruthyNum photo.lat = true ∧
      jsTruthyNum photo.lon = true ∧
      ∀ tr, nb.timeRange = some tr →
        tr.start ≤ photo.timestamp ∧ photo.timestamp ≤ tr.stop := by
  unfold neighborhoodPred
  rcases nb.timeRange with _ | tr
  · by_cases hd : photo.date = nb.date <;> simp [hd, bne]
  · by_cases hd : photo.date = nb.date <;>
      by_cases hs : tr.start ≤ photo.timestamp <;>
      by_cases he : photo.timestamp ≤ tr.stop <;>
      simp [hd, hs, he, bne, not_le.mpr]


/-- JS `%` with a positive left operand and positive modulus lands in
`[0, b)`. -/
theorem jsMod_nonneg_lt (a b : ℝ) (hb : 0 < b) (ha : 0 ≤ a) :
    0 ≤ jsMod a b ∧ jsMod a b < b := by
  have hdiv : 0 ≤ a / b := div_nonneg ha hb.le
  unfold jsMod jsTrunc
  rw [if_pos hdiv]
  have hcancel : b * (a / b) = a := mul_div_cancel₀ a hb.ne.symm
  have h1 : b * (⌊a / b⌋ : ℝ) ≤ b * (a / b) :=
    mul_le_mul_of_nonneg_left (Int.floor_le _) hb.le
  have h2 : b * (a / b) < b * ((⌊a / b⌋ : ℝ) + 1) :=
    mul_lt_mul_of_pos_left (Int.lt_floor_add_one _) hb
  constructor
  · nlinarith
  · nlinarith

/-- `a` and `a % b` differ by an integer multiple of `b`. -/
theorem sub_jsMod_eq_int_mul (a b : ℝ) :
    ∃ k : ℤ, a - jsMod a b = b * (k : ℝ) :=
  ⟨jsTrunc (a / b), by unfold jsMod; ring⟩

/-- `Math.atan2` never exceeds `π`. -/
theorem atan2_le_pi (y x : ℝ) : atan2 y x ≤ Real.pi :=
  Complex.arg_le_pi _

/-- `Math.atan2` is strictly above `-π`. -/
theorem neg_pi_lt_atan2 (y x : ℝ) : -Real.pi < atan2 y x :=
  Complex.neg_pi_lt_arg _

/-- The normalization `(θ·180/π + 360) % 360` of an angle `θ ∈ (-π, π]`
lands in `[0, 360)`. -/
theorem jsMod_deg_bounds (θ : ℝ) (h1 : -Real.pi < θ) (_h2 : θ ≤ Real.pi) :
    0 ≤ jsMod (θ * 180 / Real.pi + 360) 360 ∧
    jsMod (θ * 180 / Real.pi + 360) 360 < 360 := by
  have hπ : 0 < Real.pi := Real.pi_pos
  have hdeg : -180 < θ * 180 / Real.pi := by
    rw [lt_div_iff₀ hπ]
    nlinarith
  refine jsMod_nonneg_lt _ _ (by norm_num) (by linarith)

/-- `calculateBearing` always lands in `[0, 360)`. -/
theorem calculateBearing_mem_Ico (lat1 lon1 lat2 lon2 : ℝ) :
    0 ≤ calculateBearing lat1 lon1 lat2 lon2 ∧
    calculateBearing lat1 lon1 lat2 lon2 < 360 := by
  simp only [calculateBearing]
  exact jsMod_deg_bounds _ (neg_pi_lt_atan2 _ _) (atan2_le_pi _ _)

/-- The squared norm of the `k`-th spiral offset is `(3·10⁻⁵)² · k`. -/
theorem getPointOffset_normSq (k : ℕ) :
    (getPointOffset k).1 ^ 2 + (getPointOffset k).2 ^ 2
      = 0.00003 ^ 2 * (k : ℝ) := by
  unfold getPointOffset
  by_cases h : k = 0
  · simp [h]
  · rw [if_neg h]
    simp only
    have hsq : Real.sqrt (k : ℝ) ^ 2 = (k : ℝ) :=
      Real.sq_sqrt (Nat.cast_nonneg k)
    have hpyth := Real.sin_sq_add_cos_sq (((k : ℝ) * 137.5) * (Real.pi / 180))
    nlinarith [hsq, hpyth]

/-- Distinct occurrence counts get distinct spiral offsets. -/
theorem getPointOffset_injective : Function.Injective getPointOffset := by
  intro j k h
  have hj := getPointOffset_normSq j
  have hk := getPointOffset_normSq k
  rw [h] at hj
  have hjk : (0.00003 : ℝ) ^ 2 * (j : ℝ) = 0.00003 ^ 2 * (k : ℝ) :=
    hj.symm.trans hk
  have hcast : ((j : ℕ) : ℝ) = ((k : ℕ) : ℝ) :=
    mul_left_cancel₀ (by norm_num) hjk
  exact_mod_cast hcast

/-! ### C4 — golden-angle spiral offsets -/

/-- C4: `getPointOffset` returns `(0, 0)` for the first occurrence and
`(radius·cos(angle), radius·sin(angle))` with `angle = k·137.5°` in radians
and `radius = 0.00003·√k` otherwise, and the offsets for `k = 0..5` are
pairwise distinct (they are in fact globally injective, by the norm
argument). -/
theorem getPointOffset_spec :
    getPointOffset 0 = (0, 0) ∧
    (∀ k : ℕ, k ≠ 0 →
      getPointOffset k =
        (0.00003 * Real.sqrt (k : ℝ) *
           Real.cos ((k : ℝ) * 137.5 * (Real.pi / 180)),
         0.00003 * Real.sqrt (k : ℝ) *
           Real.sin ((k : ℝ) * 137.5 * (Real.pi / 180)))) ∧
    (∀ j k : ℕ, j ≤ 5 → k ≤ 5 → j ≠ k →
      getPointOffset j ≠ getPointOffset k) := by
  refine ⟨rfl, ?_, ?_⟩
  · intro k hk
    unfold getPointOffset
    rw [if_neg hk]
  · intro j k _ _ hne heq
    exact hne (getPointOffset_injective heq)

/-- C4 witness: the spec theorem applied at `k = 1` and at the pair
`(0, 1)`. -/
theorem getPointOffset_spec_witness :
    getPointOffset 1 =
      (0.00003 * Real.sqrt ((1 : ℕ) : ℝ) *
         Real.cos (((1 : ℕ) : ℝ) * 137.5 * (Real.pi / 180)),
       0.00003 * Real.sqrt ((1 : ℕ) : ℝ) *
         Real.sin (((1 : ℕ) : ℝ) * 137.5 * (Real.pi / 180))) ∧
    getPointOffset 0 ≠ getPointOffset 1 :=
  ⟨getPointOffset_spec.2.1 1 (by decide),
   getPointOffset_spec.2.2 0 1 (by decide) (by decide) (by decide)⟩

/-! ### C1 — heading-resolver precedence -/

/-- C1 counterexample: for a photo with a permanent yaw and no local
override, the resolver returns the source tag `"index"`, not `"persisted"`
as the claim states, so the claimed result `{yaw: 5, pitch: 0,
source: "persisted"}` is not what `getPhotoHeading` returns. -/
theorem getPhotoHeading_persisted_tag_counterexample :
    getPhotoHeading [] photoYawFive ≠ ⟨5, 0, "persisted"⟩ ∧
    getPhotoHeading [] photoYawFive = ⟨5, 0, "index"⟩ := by
  constructor <;> decide

/-- C1 (amended): `getPhotoHeading` applies the three-tier precedence
exactly — a store entry for `photo.path` is returned with source `"local"`;
otherwise, if `photo.yaw` or `photo.pitch` is defined, `{yaw ?? 0,
pitch ?? 0}` is returned with source `"index"` (the tag the code uses for
the permanent tier); otherwise `{0, 0}` with source `"default"`. -/
theorem getPhotoHeading_precedence (adj : AdjStore) (photo : Photo) :
    (∀ e, adj.lookup photo.path = some e →
      getPhotoHeading adj photo = ⟨e.yaw, e.pitch, "local"⟩) ∧
    (adj.lookup photo.path = none →
      photo.yaw ≠ none ∨ photo.pitch ≠ none →
      getPhotoHeading adj photo =
        ⟨photo.yaw.getD 0, photo.pitch.getD 0, "index"⟩) ∧
    (adj.lookup photo.path = none → photo.yaw = none → photo.pitch = none →
      getPhotoHeading adj photo = ⟨0, 0, "default"⟩) := by
  refine ⟨?_, ?_, ?_⟩
  · intro e he
    unfold getPhotoHeading
    rw [he]
  · intro hnone hdef
    unfold getPhotoHeading
    rw [hnone]
    simp only [if_pos hdef, jsOrZero_eq_getD]
  · intro hnone hy hp
    unfold getPhotoHeading
    rw [hnone]
    rw [if_neg (by simp [hy, hp])]

/-- C1 witness: the precedence theorem applied to concrete inputs, once per
tier with a hypothesis. -/
theorem getPhotoHeading_precedence_witness :
    getPhotoHeading [("a.jpg", ⟨9, 3⟩)] photoYawFive = ⟨9, 3, "local"⟩ ∧
    getPhotoHeading [] photoYawFive = ⟨5, 0, "index"⟩ ∧
    getPhotoHeading [] photoLatZero = ⟨0, 0, "default"⟩ :=
  ⟨(getPhotoHeading_precedence [("a.jpg", ⟨9, 3⟩)] photoYawFive).1 ⟨9, 3⟩ (by decide),
   (getPhotoHeading_precedence [] photoYawFive).2.1 (by decide) (Or.inl (by decide)),
   (getPhotoHeading_precedence [] photoLatZero).2.2 (by decide) (by decide) (by decide)⟩

/-! ### C2 — neighborhood filter -/

/-- C2 counterexample: a photo whose latitude is present but equals `0`
(equator) satisfies every condition of the claim — matching date, `lat` and
`lon` both present, no time window — yet is excluded, because the code
tests JS truthiness (`!photo.lat`), not presence. -/
theorem getPhotosForNeighborhood_latZero_counterexample :
    getPhotosForNeighborhood nbTokyo [photoLatZero] = [] ∧
    photoLatZero.date = nbTokyo.date ∧ photoLatZero.lat ≠ none ∧
    photoLatZero.lon ≠ none ∧ nbTokyo.timeRange = none := by
  refine ⟨rfl, by decide, by decide, by decide, rfl⟩

/-- C2 (amended): membership in `getPhotosForNeighborhood` holds exactly for
photos of the collection with matching date, truthy (present and nonzero)
`lat` and `lon`, and — when a time window is set — timestamp within the
inclusive bounds; and the result is ordered by ascending timestamp. -/
theorem getPhotosForNeighborhood_spec (nb : Neighborhood)
    (allPhotos : List Photo) :
    (∀ photo, photo ∈ getPhotosForNeighborhood nb allPhotos ↔
      photo ∈ allPhotos ∧ photo.date = nb.date ∧
      jsTruthyNum photo.lat = true ∧ jsTruthyNum photo.lon = true ∧
      ∀ tr, nb.timeRange = some tr →
        tr.start ≤ photo.timestamp ∧ photo.timestamp ≤ tr.stop) ∧
    (getPhotosForNeighborhood nb allPhotos).Sorted (tsRel Photo.timestamp) := by
  constructor
  · intro photo
    unfold getPhotosForNeighborhood sortByTimestamp
    rw [(List.perm_insertionSort _ _).mem_iff, List.mem_filter,
      neighborhoodPred_iff]
  · exact List.sorted_insertionSort _ _

/-- C2 witness: a concrete in-range photo is a member by the spec theorem. -/
theorem getPhotosForNeighborhood_spec_witness :
    photoYawFive ∈ getPhotosForNeighborhood nbTokyo [photoYawFive] :=
  ((getPhotosForNeighborhood_spec nbTokyo [photoYawFive]).1 photoYawFive).mpr
    ⟨by decide, by decide, by decide, by decide, fun tr h => nomatch h⟩

/-! ### C7 — malformed override store -/

/-- C7: when the persisted override content fails to parse, loading does not
propagate the error (the embedding is a total function, mirroring the
`try`/`catch`), the in-memory store ends up empty (`headingAdjustments`
starts as `{}` and the catch branch re-assigns `{}`), and every subsequent
heading resolution falls through to the `"index"`/`"default"` tiers. -/
theorem loadHeadingAdjustments_malformed (parse : String → Option AdjStore)
    (s : String) (hfail : parse s = none) :
    loadHeadingAdjustments parse (some s) [] = [] ∧
    ∀ photo,
      (getPhotoHeading (loadHeadingAdjustments parse (some s) []) photo).source
        ≠ "local" := by
  have hempty : loadHeadingAdjustments parse (some s) [] = [] := by
    unfold loadHeadingAdjustments
    by_cases h : jsTruthyStr (some s) = true
    · simp [h, hfail]
    · simp [h]
  refine ⟨hempty, ?_⟩
  intro photo
  rw [hempty]
  unfold getPhotoHeading
  simp only [List.lookup_nil]
  split <;> simp

/-- C7 witness: a concrete unparsable payload. -/
theorem loadHeadingAdjustments_malformed_witness :
    loadHeadingAdjustments (fun _ => none) (some ("not-json")) [] = [] ∧
    (getPhotoHeading
        (loadHeadingAdjustments (fun _ => none) (some ("not-json")) [])
        photoYawFive).source ≠ "local" :=
  ⟨(loadHeadingAdjustments_malformed (fun _ => none) ("not-json") rfl).1,
   (loadHeadingAdjustments_malformed (fun _ => none) ("not-json") rfl).2
     photoYawFive⟩

/-! ### C8 — export artifact -/

/-- C8 counterexample: the export document's fields are `exported`, `count`
and `adjustments` — not the claimed `exportedAt`, `count`, `overrides`. -/
theorem exportAdjustments_fields_counterexample :
    ((exportAdjustments storeOne isoNow).1.map fun doc => doc.map Prod.fst)
      = some ["exported", "count", "adjustments"] ∧
    (["exported", "count", "adjustments"] : List String)
      ≠ ["exportedAt", "count", "overrides"] := by
  exact ⟨rfl, by decide⟩

/-- C8 (amended): for a non-empty store the export produces exactly the JSON
document `{exported: ISO-8601 instant, count, adjustments}` whose `count` is
the number of store entries and whose `adjustments` object is the store's
contents, and the in-memory store is left unchanged (the source performs no
store or persistence mutation). -/
theorem exportAdjustments_spec (st : AdjStore) (now : String) (hne : st ≠ []) :
    (exportAdjustments st now).1
      = some [("exported", .str now),
              ("count", .num st.length),
              ("adjustments", .obj (storeAsJson st))] ∧
    (exportAdjustments st now).2 = st := by
  have hlen : st.length ≠ 0 := by simpa using hne
  unfold exportAdjustments
  simp [hlen]

/-- C8 witness: the export theorem at a concrete one-entry store. -/
theorem exportAdjustments_spec_witness :
    (exportAdjustments storeOne isoNow).1
      = some [("exported", .str isoNow),
              ("count", .num storeOne.length),
              ("adjustments", .obj (storeAsJson storeOne))] ∧
    (exportAdjustments storeOne isoNow).2 = storeOne :=
  exportAdjustments_spec storeOne isoNow (by decide)

/-! ### C10 — out-of-range navigation is a no-op -/

/-- C10: `loadPhoto` with a negative index or an index at or beyond the end
of the photo sequence returns before touching anything: the session state —
current index, viewer, map and override store — is unchanged. -/
theorem loadPhoto_out_of_range (photos : List Photo) (st : ViewerSession)
    (index : Int) (h : index < 0 ∨ index ≥ photos.length) :
    loadPhoto photos st index = st ∧
    (loadPhoto photos st index).currentIndex = st.currentIndex ∧
    (loadPhoto photos st index).viewer = st.viewer ∧
    (loadPhoto photos st index).mapCenter = st.mapCenter ∧
    (loadPhoto photos st index).headingAdjustments = st.headingAdjustments := by
  have heq : loadPhoto photos st index = st := by
    unfold loadPhoto
    rw [if_pos h]
  exact ⟨heq, by rw [heq], by rw [heq], by rw [heq], by rw [heq]⟩

/-- C10 witness: a negative index on a one-photo session. -/
theorem loadPhoto_out_of_range_witness :
    loadPhoto [photoYawFive] ⟨0, none, none, []⟩ (-1) = ⟨0, none, none, []⟩ :=
  (loadPhoto_out_of_range [photoYawFive] ⟨0, none, none, []⟩ (-1)
    (Or.inl (by decide))).1

/-! ### Association-list lookup lemmas -/

theorem lookup_eq_none_iff {α β : Type} [BEq α] [LawfulBEq α]
    (l : List (α × β)) (k : α) :
    l.lookup k = none ↔ k ∉ l.map Prod.fst := by
  induction l with
  | nil => simp
  | cons e rest ih =>
    obtain ⟨a, b⟩ := e
    by_cases h : k = a
    · subst h
      simp [List.lookup]
    · have hbeq : (k == a) = false := beq_eq_false_iff_ne.mpr h
      simp [List.lookup, hbeq, ih, h]

theorem lookup_append_of_none {α β : Type} [BEq α]
    (l₁ l₂ : List (α × β)) (k : α) (h : l₁.lookup k = none) :
    (l₁ ++ l₂).lookup k = l₂.lookup k := by
  induction l₁ with
  | nil => rfl
  | cons e rest ih =>
    obtain ⟨a, b⟩ := e
    cases hbeq : k == a with
    | true => simp [List.lookup, hbeq] at h
    | false =>
      simp only [List.cons_append, List.lookup, hbeq] at h ⊢
      exact ih h

theorem lookup_of_mem_nodupKeys {α β : Type} [BEq α] [LawfulBEq α]
    {l : List (α × β)} (hnd : (l.map Prod.fst).Nodup) {k : α} {v : β}
    (hmem : (k, v) ∈ l) : l.lookup k = some v := by
  induction l with
  | nil => cases hmem
  | cons e rest ih =>
    obtain ⟨a, b⟩ := e
    rw [List.map_cons, List.nodup_cons] at hnd
    rcases List.mem_cons.mp hmem with heq | hmem2
    · injection heq with h1 h2
      subst h1
      subst h2
      simp [List.lookup]
    · have hk : (k == a) = false := by
        refine beq_eq_false_iff_ne.mpr fun hka => ?_
        subst hka
        exact hnd.1 (List.mem_map.mpr ⟨(k, v), hmem2, rfl⟩)
      simp only [List.lookup, hk]
      exact ih hnd.2 hmem2

theorem lookup_eq_some_split {α β : Type} [BEq α] [LawfulBEq α]
    {l : List (α × β)} {k : α} {v : β} (h : l.lookup k = some v) :
    ∃ l₁ l₂, l = l₁ ++ (k, v) :: l₂ ∧ ∀ e ∈ l₁, e.1 ≠ k := by
  induction l with
  | nil => cases h
  | cons e rest ih =>
    obtain ⟨a, b⟩ := e
    cases hbeq : k == a with
    | true =>
      have ha : k = a := eq_of_beq hbeq
      have hb : b = v := by
        have := h
        simp only [List.lookup, hbeq] at this
        exact Option.some.inj this
      subst ha
      subst hb
      exact ⟨[], rest, rfl, by simp⟩
    | false =>
      simp only [List.lookup, hbeq] at h
      obtain ⟨l₁, l₂, rfl, hne⟩ := ih h
      refine ⟨(a, b) :: l₁, l₂, rfl, ?_⟩
      intro e he
      rcases List.mem_cons.mp he with rfl | he2
      · exact (beq_eq_false_iff_ne.mp hbeq).symm
      · exact hne e he2

/-! ### By-folder grouping lemmas -/

theorem any_key_iff (acc : List (String × List (ℕ × Photo))) (f : String) :
    (acc.any fun g => g.1 == f) = true ↔ f ∈ acc.map Prod.fst := by
  simp [List.any_eq_true, List.mem_map]

theorem upsertGroup_keys (acc : List (String × List (ℕ × Photo)))
    (pi : ℕ × Photo) :
    (upsertGroup acc pi).map Prod.fst =
      if pi.2.folder ∈ acc.map Prod.fst then acc.map Prod.fst
      else acc.map Prod.fst ++ [pi.2.folder] := by
  unfold upsertGroup
  by_cases h : (acc.any fun g => g.1 == pi.2.folder) = true
  · rw [if_pos h, if_pos ((any_key_iff _ _).mp h), List.map_map]
    apply List.map_congr_left
    intro g _
    simp only [Function.comp_apply]
    split <;> rfl
  · rw [if_neg h, if_neg fun hmem => h ((any_key_iff _ _).mpr hmem)]
    simp

theorem lookup_append_of_some {α β : Type} [BEq α]
    (l₁ l₂ : List (α × β)) (k : α) (v : β) (h : l₁.lookup k = some v) :
    (l₁ ++ l₂).lookup k = some v := by
  induction l₁ with
  | nil => cases h
  | cons e rest ih =>
    obtain ⟨a, b⟩ := e
    cases hbeq : k == a with
    | true =>
      rw [List.cons_append]
      simp only [List.lookup, hbeq] at h ⊢
      exact h
    | false =>
      simp only [List.cons_append, List.lookup, hbeq] at h ⊢
      exact ih h

theorem lookup_map_upd (acc : List (String × List (ℕ × Photo)))
    (fl : String) (pi : ℕ × Photo) (f : String) :
    ((acc.map fun g => if g.1 == fl then (g.1, g.2 ++ [pi]) else g).lookup f)
      = if fl = f then (acc.lookup f).map (fun v => v ++ [pi])
        else acc.lookup f := by
  induction acc with
  | nil =>
    simp only [List.map_nil, List.lookup_nil]
    split <;> rfl
  | cons g rest ih =>
    obtain ⟨a, v⟩ := g
    simp only [List.map_cons]
    by_cases hafl : (a == fl) = true
    · rw [if_pos hafl]
      by_cases haf : (f == a) = true
      · have hflf : fl = f :=
          (eq_of_beq hafl).symm.trans (eq_of_beq haf).symm
        simp only [List.lookup, haf, if_pos hflf]
        rfl
      · have hflf : fl ≠ f :=
          fun hh => haf (beq_iff_eq.mpr (hh ▸ eq_of_beq hafl : a = f).symm)
        simp only [List.lookup, haf, ih, if_neg hflf]
    · rw [if_neg hafl]
      by_cases haf : (f == a) = true
      · have hflf : fl ≠ f := by
          intro hh
          exact hafl (beq_iff_eq.mpr ((eq_of_beq haf).symm.trans hh.symm))
        simp only [List.lookup, haf, if_neg hflf]
      · simp only [List.lookup, haf, ih]

theorem lookup_upsertGroup (acc : List (String × List (ℕ × Photo)))
    (pi : ℕ × Photo) (f : String) :
    (upsertGroup acc pi).lookup f =
      if pi.2.folder = f then some (getGroup acc f ++ [pi])
      else acc.lookup f := by
  unfold upsertGroup
  by_cases h : (acc.any fun g => g.1 == pi.2.folder) = true
  · rw [if_pos h, lookup_map_upd]
    by_cases hf : pi.2.folder = f
    · rw [if_pos hf, if_pos hf]
      have hmem : f ∈ acc.map Prod.fst := hf ▸ (any_key_iff _ _).mp h
      obtain ⟨v, hv⟩ : ∃ v, acc.lookup f = some v := by
        cases hlk : acc.lookup f with
        | none => exact absurd ((lookup_eq_none_iff _ _).mp hlk) (not_not.mpr hmem)
        | some v => exact ⟨v, rfl⟩
      rw [hv]
      simp [getGroup, hv]
    · rw [if_neg hf, if_neg hf]
  · rw [if_neg h]
    by_cases hf : pi.2.folder = f
    · rw [if_pos hf]
      have hnone : acc.lookup f = none :=
        (lookup_eq_none_iff _ _).mpr
          fun hmem => h ((any_key_iff _ _).mpr (hf ▸ hmem))
      rw [lookup_append_of_none _ _ _ hnone]
      have hgg : getGroup acc f = [] := by simp [getGroup, hnone]
      rw [hgg]
      subst hf
      simp [List.lookup]
    · rw [if_neg hf]
      cases hlk : acc.lookup f with
      | some v => exact lookup_append_of_some _ _ _ _ hlk
      | none =>
        rw [lookup_append_of_none _ _ _ hlk]
        have hbeq : (f == pi.2.folder) = false :=
          beq_eq_false_iff_ne.mpr (Ne.symm hf)
        simp [List.lookup, hbeq]

theorem getGroup_foldl (l : List (ℕ × Photo))
    (acc : List (String × List (ℕ × Photo))) (f : String) :
    getGroup (l.foldl upsertGroup acc) f
      = getGroup acc f ++ l.filter fun pi => pi.2.folder == f := by
  induction l generalizing acc with
  | nil => simp
  | cons pi rest ih =>
    rw [List.foldl_cons, ih]
    by_cases h : pi.2.folder = f
    · simp [getGroup, lookup_upsertGroup, h, List.filter_cons]
    · have hbeq : (pi.2.folder == f) = false := beq_eq_false_iff_ne.mpr h
      simp [getGroup, lookup_upsertGroup, h, List.filter_cons, hbeq]

/-- The group of folder `f` is exactly the `f`-photos, in collection
order. -/
theorem getGroup_groupByFolder (l : List (ℕ × Photo)) (f : String) :
    getGroup (groupByFolder l) f = l.filter fun pi => pi.2.folder == f := by
  have h := getGroup_foldl l [] f
  simpa [groupByFolder, getGroup] using h

/-- The by-folder object's keys are the folders in first-encounter order. -/
theorem keys_groupByFolder (l : List (ℕ × Photo)) :
    (groupByFolder l).map Prod.fst
      = firstOccurrences (l.map fun pi => pi.2.folder) := by
  suffices h : ∀ acc, (l.foldl upsertGroup acc).map Prod.fst
      = (l.map fun pi => pi.2.folder).foldl
          (fun a s => if s ∈ a then a else a ++ [s]) (acc.map Prod.fst) by
    simpa [groupByFolder, firstOccurrences] using h []
  induction l with
  | nil => intro acc; rfl
  | cons pi rest ih =>
    intro acc
    rw [List.foldl_cons, ih, upsertGroup_keys, List.map_cons, List.foldl_cons]

theorem firstOccurrences_nodup (l : List String) :
    (firstOccurrences l).Nodup := by
  suffices h : ∀ acc : List String, acc.Nodup →
      (l.foldl (fun a s => if s ∈ a then a else a ++ [s]) acc).Nodup by
    exact h [] List.nodup_nil
  induction l with
  | nil => intro acc hacc; exact hacc
  | cons s rest ih =>
    intro acc hacc
    rw [List.foldl_cons]
    apply ih
    by_cases hs : s ∈ acc
    · simpa [hs] using hacc
    · simp [hs, List.nodup_append, hacc]

theorem keys_groupByFolder_nodup (l : List (ℕ × Photo)) :
    ((groupByFolder l).map Prod.fst).Nodup := by
  rw [keys_groupByFolder]
  exact firstOccurrences_nodup _

/-- Any entry of the by-folder object is its folder's photo filter. -/
theorem mem_groupByFolder {l : List (ℕ × Photo)} {f : String}
    {g : List (ℕ × Photo)} (h : (f, g) ∈ groupByFolder l) :
    g = l.filter fun pi => pi.2.folder == f := by
  have hlk := lookup_of_mem_nodupKeys (keys_groupByFolder_nodup l) h
  have hg := getGroup_groupByFolder l f
  unfold getGroup at hg
  rw [hlk] at hg
  simpa using hg

/-! ### List access helpers -/

theorem mem_of_getElem_some {α : Type} {l : List α} {n : ℕ} {a : α}
    (h : l[n]? = some a) : a ∈ l := by
  obtain ⟨hlt, rfl⟩ := List.getElem?_eq_some_iff.mp h
  exact List.getElem_mem hlt

theorem getD_eq_getElem {α : Type} (l : List α) (i : ℕ) (h : i < l.length)
    (d : α) : l.getD i d = l[i] := by
  rw [List.getD_eq_getElem?_getD, List.getElem?_eq_getElem h]
  rfl

theorem getD_mem {α : Type} (l : List α) (i : ℕ) (h : i < l.length) (d : α) :
    l.getD i d ∈ l := by
  rw [getD_eq_getElem l i h d]
  exact List.getElem_mem h

theorem map_range_getD {α β : Type} (s : List α) (d : α) (f : α → β) :
    (List.range s.length).map (fun i => f (s.getD i d)) = s.map f := by
  induction s with
  | nil => rfl
  | cons a s ih =>
    rw [List.length_cons, List.range_succ_eq_map, List.map_cons, List.map_map]
    have hpt : ∀ i ∈ List.range s.length,
        ((fun i => f ((a :: s).getD i d)) ∘ Nat.succ) i
          = (fun i => f (s.getD i d)) i := by
      intro i _
      simp [Function.comp_apply, List.getD_cons_succ]
    rw [List.map_congr_left hpt, ih]
    rfl

/-- Both pairs at one original index are the same photo. -/
theorem enum_snd_unique {l : List Photo} {i : ℕ} {p q : Photo}
    (hp : (i, p) ∈ l.enum) (hq : (i, q) ∈ l.enum) : p = q := by
  rw [List.mem_enum_iff_getElem?] at hp hq
  rw [hp] at hq
  exact Option.some.inj hq

theorem snd_mem_of_mem_enum {l : List Photo} {x : ℕ × Photo}
    (h : x ∈ l.enum) : x.2 ∈ l := by
  rw [List.mem_enum_iff_getElem?] at h
  exact mem_of_getElem_some h

/-! ### Stable sort: stability and map-commutation -/

theorem filter_orderedInsert {α : Type} (ts : α → Int) (t : Int) (a : α)
    (l : List α) :
    (List.orderedInsert (tsRel ts) a l).filter (fun x => ts x == t)
      = if ts a == t then a :: l.filter (fun x => ts x == t)
        else l.filter (fun x => ts x == t) := by
  induction l with
  | nil => simp [List.orderedInsert, List.filter_cons]
  | cons b l ih =>
    show (if tsRel ts a b then a :: b :: l
          else b :: List.orderedInsert (tsRel ts) a l).filter
            (fun x => ts x == t) = _
    by_cases hab : tsRel ts a b
    · rw [if_pos hab]
      by_cases hat : (ts a == t) = true <;>
        simp [List.filter_cons, hat]
    · rw [if_neg hab]
      have hba : ts b < ts a := lt_of_not_le hab
      by_cases hat : ts a = t
      · have hbt : (ts b == t) = false :=
          beq_eq_false_iff_ne.mpr (by omega)
        simp [List.filter_cons, ih, hat, hbt]
      · have hatb : (ts a == t) = false := beq_eq_false_iff_ne.mpr hat
        simp [List.filter_cons, ih, hatb]

theorem filter_sortByTimestamp {α : Type} (ts : α → Int) (t : Int)
    (l : List α) :
    (sortByTimestamp ts l).filter (fun x => ts x == t)
      = l.filter (fun x => ts x == t) := by
  simp only [sortByTimestamp]
  induction l with
  | nil => rfl
  | cons a l ih =>
    show (List.orderedInsert (tsRel ts) a
        (List.insertionSort (tsRel ts) l)).filter (fun x => ts x == t) = _
    rw [filter_orderedInsert, List.filter_cons, ih]

theorem orderedInsert_map {α : Type} (ts : α → Int) (F : α → α)
    (hF : ∀ x, ts (F x) = ts x) (a : α) (l : List α) :
    List.orderedInsert (tsRel ts) (F a) (l.map F)
      = (List.orderedInsert (tsRel ts) a l).map F := by
  induction l with
  | nil => rfl
  | cons b l ih =>
    show List.orderedInsert (tsRel ts) (F a) (F b :: l.map F) = _
    have hiff : tsRel ts (F a) (F b) ↔ tsRel ts a b := by
      unfold tsRel
      rw [hF, hF]
    by_cases hab : tsRel ts a b
    · rw [show List.orderedInsert (tsRel ts) (F a) (F b :: l.map F)
          = if tsRel ts (F a) (F b) then F a :: F b :: l.map F
            else F b :: List.orderedInsert (tsRel ts) (F a) (l.map F)
          from rfl,
        if_pos (hiff.mpr hab),
        show List.orderedInsert (tsRel ts) a (b :: l) =
          if tsRel ts a b then a :: b :: l
          else b :: List.orderedInsert (tsRel ts) a l from rfl,
        if_pos hab]
      rfl
    · rw [show List.orderedInsert (tsRel ts) (F a) (F b :: l.map F)
          = if tsRel ts (F a) (F b) then F a :: F b :: l.map F
            else F b :: List.orderedInsert (tsRel ts) (F a) (l.map F)
          from rfl,
        if_neg (fun hh => hab (hiff.mp hh)),
        show List.orderedInsert (tsRel ts) a (b :: l) =
          if tsRel ts a b then a :: b :: l
          else b :: List.orderedInsert (tsRel ts) a l from rfl,
        if_neg hab, List.map_cons, ih]

theorem sortByTimestamp_map {α : Type} (ts : α → Int) (F : α → α)
    (hF : ∀ x, ts (F x) = ts x) (l : List α) :
    sortByTimestamp ts (l.map F) = (sortByTimestamp ts l).map F := by
  simp only [sortByTimestamp]
  induction l with
  | nil => rfl
  | cons a l ih =>
    show List.orderedInsert (tsRel ts) (F a)
        (List.insertionSort (tsRel ts) (l.map F)) = _
    rw [ih, orderedInsert_map ts F hF]
    rfl

/-! ### Bearing assignment lemmas -/

theorem bearingAt_mem_Ico (s : List (ℕ × Photo)) (i : ℕ) :
    0 ≤ bearingAt s i ∧ bearingAt s i < 360 := by
  unfold bearingAt
  split
  · exact calculateBearing_mem_Ico _ _ _ _
  · split
    · exact calculateBearing_mem_Ico _ _ _ _
    · norm_num

theorem assignRoute_keys (s : List (ℕ × Photo)) :
    (assignRoute s).map Prod.fst = s.map Prod.fst := by
  unfold assignRoute
  rw [List.map_map]
  exact map_range_getD s default fun pi => pi.1

theorem assignRoute_getElem (s : List (ℕ × Photo)) (j : ℕ)
    (hj : j < s.length) :
    (assignRoute s)[j]? = some ((s.getD j default).1, bearingAt s j) := by
  unfold assignRoute
  rw [List.getElem?_map, List.getElem?_range hj]
  rfl

theorem mem_assignRoute (s : List (ℕ × Photo)) (j : ℕ) (hj : j < s.length) :
    ((s.getD j default).1, bearingAt s j) ∈ assignRoute s :=
  mem_of_getElem_some (assignRoute_getElem s j hj)

/-! ### C3 — route bearings -/

/-- C3: in the `photoBearings` map built by `calculatePhotoBearings`, the
photo at position `j` of the time-ordered route of folder `f` is assigned
`bearingAt route j`: the great-circle initial bearing to the next photo of
the route when one exists, else from the previous photo, else `0` for a
one-photo route (`bearingAt` spells exactly those three cases over
`calculateBearing`, the spherical initial-bearing formula
`atan2(sin Δλ · cos φ₂, cos φ₁ · sin φ₂ − sin φ₁ · cos φ₂ · cos Δλ)`
converted to degrees); and the assigned bearing always lies in
`[0, 360)`. -/
theorem calculatePhotoBearings_spec (photos : List Photo) (f : String)
    (j : ℕ) (hj : j < (routeOf photos f).length) :
    (calculatePhotoBearings photos).lookup
        ((routeOf photos f).getD j default).1
      = some (bearingAt (routeOf photos f) j)
    ∧ 0 ≤ bearingAt (routeOf photos f) j
    ∧ bearingAt (routeOf photos f) j < 360 := by
  refine ⟨?_, bearingAt_mem_Ico _ j⟩
  have hroute : routeOf photos f
      = sortPairs (photos.enum.filter fun pi => pi.2.folder == f) := rfl
  cases hlk : (groupByFolder photos.enum).lookup f with
  | none =>
    exfalso
    have hgg := getGroup_groupByFolder photos.enum f
    unfold getGroup at hgg
    rw [hlk] at hgg
    have hFnil : photos.enum.filter (fun pi => pi.2.folder == f) = [] := by
      simpa using hgg.symm
    rw [hroute, hFnil] at hj
    simp [sortPairs, sortByTimestamp] at hj
  | some g =>
    have hgF : g = photos.enum.filter fun pi => pi.2.folder == f := by
      have hgg := getGroup_groupByFolder photos.enum f
      unfold getGroup at hgg
      rw [hlk] at hgg
      simpa using hgg
    obtain ⟨gs₁, gs₂, hsplit, hne⟩ := lookup_eq_some_split hlk
    have hperm : (routeOf photos f).Perm
        (photos.enum.filter fun pi => pi.2.folder == f) := by
      rw [hroute]
      exact List.perm_insertionSort _ _
    have hkey_mem : (routeOf photos f).getD j default ∈ routeOf photos f :=
      getD_mem _ j hj _
    have hmem_filter : (routeOf photos f).getD j default
        ∈ photos.enum.filter (fun pi => pi.2.folder == f) :=
      hperm.mem_iff.mp hkey_mem
    have hmem_enum : (routeOf photos f).getD j default ∈ photos.enum :=
      List.mem_of_mem_filter hmem_filter
    have hfolder : ((routeOf photos f).getD j default).2.folder = f := by
      have := (List.mem_filter.mp hmem_filter).2
      simpa [beq_iff_eq] using this
    have hndF : ((photos.enum.filter
        fun pi => pi.2.folder == f).map Prod.fst).Nodup := by
      have hsub := (List.filter_sublist
        (p := fun pi => pi.2.folder == f) photos.enum).map Prod.fst
      rw [List.enum_map_fst] at hsub
      exact hsub.nodup (List.nodup_range _)
    have hnd_route : ((routeOf photos f).map Prod.fst).Nodup :=
      ((hperm.map Prod.fst).nodup_iff).mpr hndF
    unfold calculatePhotoBearings
    rw [hsplit, List.flatMap_append, List.flatMap_cons]
    have hnone1 : (gs₁.flatMap fun g2 => assignRoute (sortPairs g2.2)).lookup
        ((routeOf photos f).getD j default).1 = none := by
      rw [lookup_eq_none_iff]
      intro hmem
      obtain ⟨y, hy_mem, hy_fst⟩ := List.mem_map.mp hmem
      obtain ⟨g2, hg2_mem, hy_in⟩ := List.mem_flatMap.mp hy_mem
      have hy_key : y.1 ∈ (sortPairs g2.2).map Prod.fst := by
        have hmm : y.1 ∈ (assignRoute (sortPairs g2.2)).map Prod.fst :=
          List.mem_map.mpr ⟨y, hy_in, rfl⟩
        rwa [assignRoute_keys] at hmm
      have hperm2 : (sortPairs g2.2).Perm g2.2 := List.perm_insertionSort _ _
      have hy_key2 : y.1 ∈ g2.2.map Prod.fst :=
        (hperm2.map Prod.fst).mem_iff.mp hy_key
      obtain ⟨z, hz_mem, hz_fst⟩ := List.mem_map.mp hy_key2
      have hg2_groups : (g2.1, g2.2) ∈ groupByFolder photos.enum := by
        rw [hsplit]
        exact List.mem_append_left _ hg2_mem
      have hz_filter : z ∈ photos.enum.filter
          (fun pi => pi.2.folder == g2.1) := by
        rw [← mem_groupByFolder hg2_groups]
        exact hz_mem
      have hz_enum : z ∈ photos.enum := List.mem_of_mem_filter hz_filter
      have hz_folder : z.2.folder = g2.1 := by
        have := (List.mem_filter.mp hz_filter).2
        simpa [beq_iff_eq] using this
      have hsame : z.1 = ((routeOf photos f).getD j default).1 :=
        hz_fst.trans hy_fst
      have hz_pair : (((routeOf photos f).getD j default).1, z.2)
          ∈ photos.enum := by
        rw [← hsame]
        simpa using hz_enum
      have hk_pair : (((routeOf photos f).getD j default).1,
          ((routeOf photos f).getD j default).2) ∈ photos.enum := by
        simpa using hmem_enum
      have hzq : z.2 = ((routeOf photos f).getD j default).2 :=
        enum_snd_unique hz_pair hk_pair
      have : g2.1 = f := by
        rw [← hz_folder, hzq, hfolder]
      exact hne g2 hg2_mem (by simpa using this)
    rw [lookup_append_of_none _ _ _ hnone1]
    have hroute_g : routeOf photos f = sortPairs g := by
      rw [hroute, hgF]
    have hkeys_nodup : ((assignRoute (sortPairs g)).map Prod.fst).Nodup := by
      rw [assignRoute_keys, ← hroute_g]
      exact hnd_route
    have hmem_ar : (((routeOf photos f).getD j default).1,
        bearingAt (routeOf photos f) j) ∈ assignRoute (sortPairs g) := by
      rw [← hroute_g]
      exact mem_assignRoute _ j hj
    exact lookup_append_of_some _ _ _ _
      (lookup_of_mem_nodupKeys hkeys_nodup hmem_ar)

/-- C3 witness: position 0 of the two-photo route `G`. -/
theorem calculatePhotoBearings_spec_witness :
    (calculatePhotoBearings photosB).lookup
        ((routeOf photosB folderG).getD 0 default).1
      = some (bearingAt (routeOf photosB folderG) 0)
    ∧ 0 ≤ bearingAt (routeOf photosB folderG) 0
    ∧ bearingAt (routeOf photosB folderG) 0 < 360 :=
  calculatePhotoBearings_spec photosB folderG 0 (by decide)

/-! ### C6 — route grouping -/

theorem lookup_map_snd (gs : List (String × List (ℕ × Photo)))
    (h : List (ℕ × Photo) → List (ℕ × Photo)) (f : String) :
    ((gs.map fun g => (g.1, h g.2)).lookup f) = (gs.lookup f).map h := by
  induction gs with
  | nil => rfl
  | cons g rest ih =>
    obtain ⟨a, v⟩ := g
    cases hbeq : f == a with
    | true => simp [List.lookup, hbeq]
    | false => simp [List.lookup, hbeq, ih]

/-- C6: the minimap's route map lists its folders in the order they first
occur among the map-eligible photos (not sorted by name), and each folder's
route is that folder's photo sub-sequence sorted by ascending timestamp with
ties kept in original collection order: for every timestamp `t`, the `t`-ties
of the route appear exactly as they do in the unsorted sub-sequence. -/
theorem minimapRoutes_spec (photos : List Photo) :
    ((minimapRoutes photos).map Prod.fst
      = firstOccurrences
          ((photos.enum.filter fun pi => mapPointPred pi.2).map
            fun pi => pi.2.folder)) ∧
    ∀ f r, (minimapRoutes photos).lookup f = some r →
      r.Sorted (tsRel fun pi => pi.2.timestamp) ∧
      r.Perm ((photos.enum.filter fun pi => mapPointPred pi.2).filter
        fun pi => pi.2.folder == f) ∧
      ∀ t, r.filter (fun pi => pi.2.timestamp == t)
        = ((photos.enum.filter fun pi => mapPointPred pi.2).filter
            fun pi => pi.2.folder == f).filter
              fun pi => pi.2.timestamp == t := by
  constructor
  · unfold minimapRoutes
    rw [List.map_map]
    exact keys_groupByFolder _
  · intro f r hlk
    unfold minimapRoutes at hlk
    rw [lookup_map_snd] at hlk
    cases hg : (minimapGroups photos).lookup f with
    | none =>
      rw [hg] at hlk
      cases hlk
    | some g =>
      rw [hg] at hlk
      have hr : r = sortPairs g := (Option.some.inj hlk).symm
      have hgF : g = (photos.enum.filter fun pi => mapPointPred pi.2).filter
          fun pi => pi.2.folder == f := by
        have hgg := getGroup_groupByFolder
          (photos.enum.filter fun pi => mapPointPred pi.2) f
        unfold getGroup at hgg
        unfold minimapGroups at hg
        rw [hg] at hgg
        simpa using hgg
      refine ⟨?_, ?_, ?_⟩
      · rw [hr]
        exact List.sorted_insertionSort _ _
      · rw [hr, hgF]
        exact List.perm_insertionSort _ _
      · intro t
        rw [hr, hgF]
        exact filter_sortByTimestamp (fun pi : ℕ × Photo => pi.2.timestamp) t _

/-- C6 witness: the grouping theorem at a two-photo out-of-order folder;
the sorted route keeps the original indices. -/
theorem minimapRoutes_spec_witness :
    routeW.Sorted (tsRel fun pi => pi.2.timestamp) ∧
    routeW.Perm ((photosW.enum.filter fun pi => mapPointPred pi.2).filter
      fun pi => pi.2.folder == folderF) ∧
    routeW.filter (fun pi => pi.2.timestamp == 1000)
      = ((photosW.enum.filter fun pi => mapPointPred pi.2).filter
          fun pi => pi.2.folder == folderF).filter
            fun pi => pi.2.timestamp == 1000 :=
  have h := (minimapRoutes_spec photosW).2 folderF routeW (by decide)
  ⟨h.1, h.2.1, h.2.2 1000⟩

/-! ### C9 — translation behaviour of bearings -/

/-- The initial-bearing formula only reads the longitude difference, so a
uniform longitude shift cancels. -/
theorem calculateBearing_lon_shift (lat1 lon1 lat2 lon2 c : ℝ) :
    calculateBearing lat1 (lon1 + c) lat2 (lon2 + c)
      = calculateBearing lat1 lon1 lat2 lon2 := by
  unfold calculateBearing
  have h : lon2 + c - (lon1 + c) = lon2 - lon1 := by ring
  rw [h]

theorem latD_translate (dlon : ℚ) (p : Photo) :
    (translate 0 dlon p).latD = p.latD := by
  cases hp : p.lat with
  | none => simp [translate, Photo.latD, hp]
  | some v => simp [translate, Photo.latD, hp]

theorem lonD_translate (dlat dlon : ℚ) (p : Photo) (h : p.lon ≠ none) :
    (translate dlat dlon p).lonD = p.lonD + (dlon : ℝ) := by
  cases hp : p.lon with
  | none => exact absurd hp h
  | some v =>
    simp only [translate, Photo.lonD, hp, Option.map_some', Option.getD_some]
    push_cast
    ring

theorem upsertGroup_map (F : ℕ × Photo → ℕ × Photo)
    (hF : ∀ pi, (F pi).2.folder = pi.2.folder)
    (acc : List (String × List (ℕ × Photo))) (pi : ℕ × Photo) :
    upsertGroup (acc.map fun g => (g.1, g.2.map F)) (F pi)
      = (upsertGroup acc pi).map fun g => (g.1, g.2.map F) := by
  unfold upsertGroup
  rw [hF pi]
  have hany : ((acc.map fun g => (g.1, g.2.map F)).any
      fun g => g.1 == pi.2.folder) = acc.any fun g => g.1 == pi.2.folder := by
    rw [List.any_map]
    rfl
  rw [hany]
  by_cases h : (acc.any fun g => g.1 == pi.2.folder) = true
  · rw [if_pos h, if_pos h, List.map_map, List.map_map]
    apply List.map_congr_left
    intro g _
    simp only [Function.comp_apply]
    by_cases hg : (g.1 == pi.2.folder) = true
    · simp [hg]
    · simp [hg]
  · rw [if_neg h, if_neg h, List.map_append]
    rfl

theorem groupByFolder_map (F : ℕ × Photo → ℕ × Photo)
    (hF : ∀ pi, (F pi).2.folder = pi.2.folder) (l : List (ℕ × Photo)) :
    groupByFolder (l.map F)
      = (groupByFolder l).map fun g => (g.1, g.2.map F) := by
  suffices h : ∀ acc,
      (l.map F).foldl upsertGroup (acc.map fun g => (g.1, g.2.map F))
        = (l.foldl upsertGroup acc).map fun g => (g.1, g.2.map F) by
    simpa [groupByFolder] using h []
  induction l with
  | nil => intro acc; rfl
  | cons pi rest ih =>
    intro acc
    rw [List.map_cons, List.foldl_cons, List.foldl_cons,
      upsertGroup_map F hF acc pi]
    exact ih (upsertGroup acc pi)

theorem bearingAt_map (c : ℚ) (s : List (ℕ × Photo))
    (hs : ∀ pi ∈ s, pi.2.lon ≠ none) (i : ℕ) (hi : i < s.length) :
    bearingAt (s.map (Prod.map id (translate 0 c))) i = bearingAt s i := by
  have hgd : ∀ j, j < s.length →
      (s.map (Prod.map id (translate 0 c))).getD j default
        = Prod.map id (translate 0 c) (s.getD j default) := by
    intro j hj
    rw [getD_eq_getElem _ j (by simpa using hj),
      getD_eq_getElem _ j hj, List.getElem_map]
  have hlon : ∀ j, j < s.length → (s.getD j default).2.lon ≠ none :=
    fun j hj => hs _ (getD_mem s j hj default)
  unfold bearingAt
  rw [List.length_map]
  by_cases h1 : i < s.length - 1
  · rw [if_pos h1, if_pos h1, hgd i hi, hgd (i + 1) (by omega)]
    simp only [Prod.map_snd, id]
    rw [latD_translate, latD_translate,
      lonD_translate 0 c _ (hlon i hi),
      lonD_translate 0 c _ (hlon (i + 1) (by omega))]
    exact calculateBearing_lon_shift _ _ _ _ _
  · rw [if_neg h1, if_neg h1]
    by_cases h2 : 0 < i
    · rw [if_pos h2, if_pos h2, hgd i hi, hgd (i - 1) (by omega)]
      simp only [Prod.map_snd, id]
      rw [latD_translate, latD_translate,
        lonD_translate 0 c _ (hlon (i - 1) (by omega)),
        lonD_translate 0 c _ (hlon i hi)]
      exact calculateBearing_lon_shift _ _ _ _ _
    · rw [if_neg h2, if_neg h2]

theorem assignRoute_map (c : ℚ) (s : List (ℕ × Photo))
    (hs : ∀ pi ∈ s, pi.2.lon ≠ none) :
    assignRoute (s.map (Prod.map id (translate 0 c))) = assignRoute s := by
  unfold assignRoute
  rw [List.length_map]
  apply List.map_congr_left
  intro i hi
  have hi2 : i < s.length := List.mem_range.mp hi
  have hgd : (s.map (Prod.map id (translate 0 c))).getD i default
      = Prod.map id (translate 0 c) (s.getD i default) := by
    rw [getD_eq_getElem _ i (by simpa using hi2),
      getD_eq_getElem _ i hi2, List.getElem_map]
  rw [hgd, bearingAt_map c s hs i hi2]
  simp

theorem flatMap_congr {α β : Type} {l : List α} {f g : α → List β}
    (h : ∀ a ∈ l, f a = g a) : l.flatMap f = l.flatMap g := by
  induction l with
  | nil => rfl
  | cons a l ih =>
    rw [List.flatMap_cons, List.flatMap_cons, h a (List.mem_cons_self a l),
      ih fun x hx => h x (List.mem_cons_of_mem a hx)]

/-- C9 (amended): bearings are invariant under a uniform translation in
longitude (`Δlat = 0`): translating every photo's longitude by a constant
yields identical bearings at every position of every route.  (Latitude
translation does change bearings — see the counterexample.) -/
theorem calculatePhotoBearings_lon_translation (photos : List Photo) (c : ℚ)
    (h : ∀ p ∈ photos, p.lon ≠ none) :
    calculatePhotoBearings (photos.map (translate 0 c))
      = calculatePhotoBearings photos := by
  unfold calculatePhotoBearings
  rw [List.enum_map,
    groupByFolder_map (Prod.map id (translate 0 c)) (fun pi => rfl),
    List.flatMap_map]
  apply flatMap_congr
  intro g hg
  obtain ⟨f1, g2⟩ := g
  have hcontent := mem_groupByFolder hg
  have hsP : ∀ pi ∈ sortPairs g2, pi.2.lon ≠ none := by
    intro pi hpi
    have hmem_g : pi ∈ g2 :=
      (List.perm_insertionSort _ _).mem_iff.mp hpi
    have hmem_enum : pi ∈ photos.enum := by
      rw [hcontent] at hmem_g
      exact List.mem_of_mem_filter hmem_g
    exact h pi.2 (snd_mem_of_mem_enum hmem_enum)
  show assignRoute (sortPairs (g2.map (Prod.map id (translate 0 c)))) = _
  rw [show sortPairs (g2.map (Prod.map id (translate 0 c)))
        = (sortPairs g2).map (Prod.map id (translate 0 c)) from
      sortByTimestamp_map (fun pi : ℕ × Photo => pi.2.timestamp)
        (Prod.map id (translate 0 c)) (fun x => rfl) g2,
    assignRoute_map c (sortPairs g2) hsP]

/-- C9 witness: a concrete longitude shift of the two-photo route. -/
theorem calculatePhotoBearings_lon_translation_witness :
    calculatePhotoBearings (photosB.map (translate 0 5))
      = calculatePhotoBearings photosB :=
  calculatePhotoBearings_lon_translation photosB 5 (by decide)

theorem atan2_one_zero : atan2 1 0 = Real.pi / 2 := by
  unfold atan2
  have h : (⟨0, 1⟩ : ℂ) = Complex.I := rfl
  rw [h, Complex.arg_I]

theorem jsMod_450 : jsMod 450 360 = 90 := by
  unfold jsMod jsTrunc
  have hdiv : (0:ℝ) ≤ 450 / 360 := by norm_num
  rw [if_pos hdiv]
  have hfl : ⌊(450:ℝ) / 360⌋ = 1 := by
    rw [Int.floor_eq_iff]
    constructor <;> norm_num
  rw [hfl]
  norm_num

/-- Due-east bearing on the equator is exactly 90°. -/
theorem calculateBearing_equator_east : calculateBearing 0 0 0 90 = 90 := by
  simp only [calculateBearing]
  have h1 : ((90:ℝ) - 0) * Real.pi / 180 = Real.pi / 2 := by ring
  have h2 : (0:ℝ) * Real.pi / 180 = 0 := by ring
  rw [h1, h2, Real.sin_pi_div_two, Real.cos_zero, Real.sin_zero,
    Real.cos_pi_div_two]
  norm_num
  rw [atan2_one_zero]
  have h3 : Real.pi / 2 * 180 / Real.pi = 90 := by
    field_simp
    ring
  rw [h3, show (90:ℝ) + 360 = 450 by norm_num, jsMod_450]

/-- At any latitude strictly between 0° and 90°, the initial bearing of the
same due-east leg is no longer 90°. -/
theorem calculateBearing_shifted_ne (t : ℝ) (h0 : 0 < t) (h90 : t < 90) :
    calculateBearing t 0 t 90 ≠ 90 := by
  simp only [calculateBearing]
  have h1 : ((90:ℝ) - 0) * Real.pi / 180 = Real.pi / 2 := by ring
  rw [h1, Real.sin_pi_div_two, Real.cos_pi_div_two]
  set φ := t * Real.pi / 180 with hφ
  have hπ : 0 < Real.pi := Real.pi_pos
  have hφ0 : 0 < φ := by
    rw [hφ]
    positivity
  have hφπ : φ < Real.pi / 2 := by
    rw [hφ, div_lt_iff₀ (by norm_num : (0:ℝ) < 180)]
    nlinarith
  have hsin : 0 < Real.sin φ :=
    Real.sin_pos_of_pos_of_lt_pi hφ0 (by linarith)
  have hcos : 0 < Real.cos φ :=
    Real.cos_pos_of_mem_Ioo ⟨by linarith, hφπ⟩
  have hy : (1:ℝ) * Real.cos φ = Real.cos φ := one_mul _
  have hx : Real.cos φ * Real.sin φ - Real.sin φ * Real.cos φ * 0
      = Real.sin φ * Real.cos φ := by ring
  rw [hy, hx]
  have hre : 0 < Real.sin φ * Real.cos φ := mul_pos hsin hcos
  have habs : |atan2 (Real.cos φ) (Real.sin φ * Real.cos φ)| < Real.pi / 2 := by
    unfold atan2
    exact Complex.abs_arg_lt_pi_div_two_iff.mpr (Or.inl hre)
  set θ := atan2 (Real.cos φ) (Real.sin φ * Real.cos φ) with hθ
  have hdeg : |θ * 180 / Real.pi| < 90 := by
    rw [abs_div, abs_mul, abs_of_pos hπ,
      show |(180:ℝ)| = 180 by norm_num,
      div_lt_iff₀ hπ]
    nlinarith
  have habs2 := abs_lt.mp hdeg
  intro hcontra
  obtain ⟨k, hk⟩ := sub_jsMod_eq_int_mul (θ * 180 / Real.pi + 360) 360
  rw [hcontra] at hk
  have hgt : (180:ℝ) < 360 * (k:ℝ) := by
    rw [← hk]
    linarith [habs2.1]
  have hlt : 360 * (k:ℝ) < 360 := by
    rw [← hk]
    linarith [habs2.2]
  have hk1 : (1:ℤ) ≤ k := by
    by_contra hc
    push_neg at hc
    have hk0 : k ≤ 0 := by omega
    have : (k:ℝ) ≤ 0 := by exact_mod_cast hk0
    nlinarith
  have hge : (360:ℝ) ≤ 360 * (k:ℝ) := by
    have hcast : (1:ℝ) ≤ (k:ℝ) := by exact_mod_cast hk1
    nlinarith
  linarith

/-- C9 counterexample: translating the equatorial two-photo route uniformly
by `(Δlat, Δlon) = (0.001°, 0)` — about 110 m, well within "small" — changes
the bearing assigned to the route's first photo: originally it is exactly
90° (due east), after the latitude shift it is strictly smaller, so the
bearings are not identical. -/
theorem calculatePhotoBearings_translation_counterexample :
    (calculatePhotoBearings photosB).lookup 0
      ≠ (calculatePhotoBearings
          (photosB.map (translate (1 / 1000) 0))).lookup 0 := by
  have h1 : (calculatePhotoBearings photosB).lookup 0
      = some (calculateBearing pB1.latD pB1.lonD pB2.latD pB2.lonD) := rfl
  have h2 : (calculatePhotoBearings
        (photosB.map (translate (1 / 1000) 0))).lookup 0
      = some (calculateBearing
          (translate (1 / 1000) 0 pB1).latD (translate (1 / 1000) 0 pB1).lonD
          (translate (1 / 1000) 0 pB2).latD
          (translate (1 / 1000) 0 pB2).lonD) := rfl
  rw [h1, h2]
  intro hcontra
  have hb := Option.some.inj hcontra
  have e1 : pB1.latD = 0 := by norm_num [Photo.latD, pB1]
  have e2 : pB1.lonD = 0 := by norm_num [Photo.lonD, pB1]
  have e3 : pB2.latD = 0 := by norm_num [Photo.latD, pB2]
  have e4 : pB2.lonD = 90 := by norm_num [Photo.lonD, pB2]
  have f1 : (translate (1 / 1000) 0 pB1).latD = 1 / 1000 := by
    norm_num [Photo.latD, translate, pB1]
  have f2 : (translate (1 / 1000) 0 pB1).lonD = 0 := by
    norm_num [Photo.lonD, translate, pB1]
  have f3 : (translate (1 / 1000) 0 pB2).latD = 1 / 1000 := by
    norm_num [Photo.latD, translate, pB2]
  have f4 : (translate (1 / 1000) 0 pB2).lonD = 90 := by
    norm_num [Photo.lonD, translate, pB2]
  rw [e1, e2, e3, e4, f1, f2, f3, f4, calculateBearing_equator_east] at hb
  exact calculateBearing_shifted_ne (1 / 1000) (by norm_num) (by norm_num)
    hb.symm

/-! ### C5 — scope of the collision counters -/

/-- A photo whose rounded key is new to the counters, and first among the
positions before it, gets offset `(0, 0)` and keeps its list position. -/
theorem assignOffsets_entry (l : List Photo) :
    ∀ (counts : CoordCounts) (i : ℕ), i < l.length →
      counts.lookup (coordKey (l.getD i default)) = none →
      (∀ j, j < i →
        coordKey (l.getD j default) ≠ coordKey (l.getD i default)) →
      (assignOffsets counts l).1.getD i (default, (0, 0))
        = (l.getD i default, (0, 0)) := by
  induction l with
  | nil =>
    intro counts i hi
    exact absurd hi (by simp)
  | cons p rest ih =>
    intro counts i hi hnone hfirst
    match i with
    | 0 =>
      have hp : (p :: rest).getD 0 default = p := List.getD_cons_zero
      rw [hp] at hnone ⊢
      have hcount : (counts.lookup (coordKey p)).getD 0 = 0 := by
        rw [hnone]
        rfl
      simp only [assignOffsets, hcount, List.getD_cons_zero]
      norm_num
    | i + 1 =>
      have hi2 : i < rest.length := by
        simpa [Nat.succ_lt_succ_iff] using hi
      have hkey_ne : coordKey p ≠ coordKey (rest.getD i default) := by
        have h0 := hfirst 0 (Nat.succ_pos i)
        simpa [List.getD_cons_zero, List.getD_cons_succ] using h0
      have hbeq : (coordKey (rest.getD i default) == coordKey p) = false :=
        beq_eq_false_iff_ne.mpr (Ne.symm hkey_ne)
      have hnone2 : ((coordKey p, ((counts.lookup (coordKey p)).getD 0) + 1)
          :: counts).lookup (coordKey (rest.getD i default)) = none := by
        simp only [List.lookup, hbeq]
        simpa [List.getD_cons_succ] using hnone
      have hfirst2 : ∀ j, j < i →
          coordKey (rest.getD j default) ≠ coordKey (rest.getD i default) := by
        intro j hj
        have := hfirst (j + 1) (by omega)
        simpa [List.getD_cons_succ] using this
      simp only [assignOffsets, List.getD_cons_succ]
      exact ih _ i hi2 hnone2 hfirst2

/-- C5 (amended): in the full viewer's minimap the collision counters are
scoped to a single route.  Each route's offsets are computed from fresh
empty counters independently of every other route (photos in different
routes are never offset against each other), and the first occurrence of a
rounded key within a route receives zero offset.  In the home-page card map
the counter object is shared across the card's routes instead — see the
counterexample. -/
theorem minimapOffsets_route_scoped :
    (∀ (rs₁ : List (String × List Photo)) (r : String × List Photo) rs₂,
      minimapOffsets (rs₁ ++ r :: rs₂)
        = minimapOffsets rs₁ ++ minimapOffsets [r] ++ minimapOffsets rs₂) ∧
    (∀ (l : List Photo) (i : ℕ), i < l.length →
      (∀ j, j < i →
        coordKey (l.getD j default) ≠ coordKey (l.getD i default)) →
      (assignOffsets [] l).1.getD i (default, (0, 0))
        = (l.getD i default, (0, 0))) := by
  constructor
  · intro rs₁ r rs₂
    simp [minimapOffsets, List.flatMap_append, List.flatMap_cons]
  · intro l i hi hfirst
    exact assignOffsets_entry l [] i hi List.lookup_nil hfirst

/-- C5 witness: the scoping theorem at a concrete pair of one-photo
routes. -/
theorem minimapOffsets_route_scoped_witness :
    minimapOffsets ([("A", [pXa])] ++ ("B", [pXb]) :: [])
      = minimapOffsets [("A", [pXa])] ++ minimapOffsets [("B", [pXb])]
        ++ minimapOffsets [] ∧
    (assignOffsets [] [pXa]).1.getD 0 (default, (0, 0)) = (pXa, (0, 0)) :=
  ⟨minimapOffsets_route_scoped.1 [("A", [pXa])] ("B", [pXb]) [],
   by
    have h := minimapOffsets_route_scoped.2 [pXa] 0 (by decide)
      fun j hj => absurd hj (Nat.not_lt_zero j)
    simpa using h⟩

/-- C5 counterexample: in the home-page card map (`initCardMap`) the
counter is shared across routes, so photo `pXb` — the first and only photo
of route `B`, hence the first occurrence of its rounded key *within its own
route* — still receives the nonzero spiral offset `getPointOffset 1`,
because route `A` already used the same rounded key. -/
theorem cardMapOffsets_cross_route_counterexample :
    cardMapOffsets routesX = [(pXa, (0, 0)), (pXb, getPointOffset 1)] ∧
    getPointOffset 1 ≠ (0, 0) := by
  constructor
  · have hkey : coordKey pXb = coordKey pXa := rfl
    have h0 : getPointOffset 0 = ((0:ℝ), (0:ℝ)) := rfl
    simp [cardMapOffsets, routesX, assignOffsetsCard, sortByTimestamp,
      List.insertionSort, List.orderedInsert, List.lookup, hkey, h0]
  · intro h
    have hns := getPointOffset_normSq 1
    rw [h] at hns
    norm_num at hns

end GeoPhotos
